import Mathlib

deriving instance DecidableEq for Except

/-!
Shallow embedding of the parser-combinator engine in
`src/crates/compiler/parse/src/parser.rs`, together with theorems settling
the frozen claims about it.

Machine integers (`u32` indentation thresholds, `usize` lengths) are
embedded as `Nat`; the one place where Rust `usize` subtraction is partial
(`Progress::from_lengths`) is modelled explicitly by a checked variant.
The Rust parsers are closures `(arena, State, min_indent) -> ParseResult`;
the arena only affects allocation, never control flow, so it is dropped
from the embedding and bump-allocated vectors become `List`s.  The
repetition combinators contain `loop`s that need not terminate for
arbitrary argument parsers, so their loops take a fuel parameter and
return `Option` (`none` = fuel exhausted).
-/

namespace Roc

/-- Modelled from the spec: the parse-state cursor of `crate::state::State`
(`state.rs` is not under `src/`).  Per the spec's data model it holds the
remaining input bytes (a suffix of the original buffer), the current
absolute byte offset (`Position`), and the line bookkeeping from which the
current column is computed.  The literal matchers of `parser.rs` assert
their literals contain no newline, so advancing by `n` bytes adds `n` to
both the offset and the column. -/
structure State where
  bytes : List UInt8
  offset : Nat
  column : Nat
deriving DecidableEq

/-- Modelled from the spec: `State::pos()` returns the current `Position`
(byte offset). -/
def State.pos (s : State) : Nat :=
  s.offset

/-- Modelled from the spec: `State::advance(n)` moves the cursor forward
past `n` bytes (no newline among them in any use within this core). -/
def State.advance (s : State) (n : Nat) : State :=
  ⟨s.bytes.drop n, s.offset + n, s.column + n⟩

/-- `Progress`, `parser.rs` lines 17-21. -/
inductive Progress where
  | MadeProgress
  | NoProgress
deriving DecidableEq

/-- `Progress::progress_when`, `parser.rs` lines 31-37. -/
def Progress.progressWhen (madeProgress : Bool) : Progress :=
  if madeProgress then .MadeProgress else .NoProgress

/-- `Progress::from_consumed`, `parser.rs` lines 27-29. -/
def Progress.fromConsumed (charsConsumed : Nat) : Progress :=
  .progressWhen (charsConsumed != 0)

/-- `Progress::from_lengths`, `parser.rs` lines 24-26.  The Rust `usize`
subtraction `before - after` is partial (it underflows when
`after > before`); here `Nat` subtraction truncates instead.  The partial
behaviour is modelled faithfully by `Progress.fromLengthsChecked` below;
the two agree on the entire domain of the Rust function. -/
def Progress.fromLengths (before after : Nat) : Progress :=
  .fromConsumed (before - after)

/-- `Progress::from_lengths` with the partiality of the Rust `usize`
subtraction made explicit: `none` when `before - after` would underflow. -/
def Progress.fromLengthsChecked (before after : Nat) : Option Progress :=
  if after ≤ before then some (.fromLengths before after) else none

/-- `Progress::or`, `parser.rs` lines 39-45. -/
def Progress.or (p other : Progress) : Progress :=
  if p = .MadeProgress ∨ other = .MadeProgress then .MadeProgress else .NoProgress

/-- `Progress::and`, `parser.rs` lines 47-53. -/
def Progress.and (p other : Progress) : Progress :=
  if p = .MadeProgress ∧ other = .MadeProgress then .MadeProgress else .NoProgress

/-- `ParseResult`, `parser.rs` line 15:
`Result<(Progress, Output, State), (Progress, Error)>`. -/
abbrev ParseResult (α ε : Type) := Except (Progress × ε) (Progress × α × State)

/-- A parser, `parser.rs` trait `Parser`: a function of the state and the
ambient `min_indent` (the arena argument never affects outcomes and is
dropped from the embedding). -/
abbrev Parser (α ε : Type) := State → Nat → ParseResult α ε

variable {α β ε : Type}

/-- `bytes.starts_with(pat)` on byte slices. -/
def listStartsWith : List UInt8 → List UInt8 → Bool
  | _, [] => true
  | [], _ :: _ => false
  | b :: bs, p :: ps => b == p && listStartsWith bs ps

/-- `word`, `parser.rs` lines 1955-1970: matches the literal whenever the
input starts with it (the source also debug-asserts the literal contains
no newline). -/
def word (w : List UInt8) (toError : Nat → ε) : Parser Unit ε := fun s _ =>
  if listStartsWith s.bytes w then
    .ok (.MadeProgress, (), s.advance w.length)
  else
    .error (.NoProgress, toError s.pos)

/-- `keyword`, `parser.rs` lines 1001-1030: matches the literal only when
the byte after it is a space, `#`, `\n`, `\r`, or absent. -/
def keyword (keywordStr : List UInt8) (ifError : Nat → ε) : Parser Unit ε := fun s _ =>
  let width := keywordStr.length
  if !listStartsWith s.bytes keywordStr then
    .error (.NoProgress, ifError s.pos)
  else
    match s.bytes[width]? with
    | some next =>
      if next == 32 || next == 35 || next == 10 || next == 13 then
        .ok (.MadeProgress, (), s.advance width)
      else
        .error (.NoProgress, ifError s.pos)
    | none => .ok (.MadeProgress, (), s.advance width)

/-- `byte`, `parser.rs` lines 2000-2014. -/
def byte (byteToMatch : UInt8) (toError : Nat → ε) : Parser Unit ε := fun s _ =>
  match s.bytes.head? with
  | some x =>
    if x == byteToMatch then
      .ok (.MadeProgress, (), s.advance 1)
    else
      .error (.NoProgress, toError s.pos)
  | none => .error (.NoProgress, toError s.pos)

/-- `byte_indent`, `parser.rs` lines 2048-2068: like `byte`, but fails up
front when `min_indent` exceeds the state's column. -/
def byteIndent (byteToMatch : UInt8) (toError : Nat → ε) : Parser Unit ε := fun s minIndent =>
  if s.column < minIndent then
    .error (.NoProgress, toError s.pos)
  else
    match s.bytes.head? with
    | some x =>
      if x == byteToMatch then
        .ok (.MadeProgress, (), s.advance 1)
      else
        .error (.NoProgress, toError s.pos)
    | none => .error (.NoProgress, toError s.pos)

/-- The `and!` macro, `parser.rs` lines 1659-1672. -/
def andP (p1 : Parser α ε) (p2 : Parser β ε) : Parser (α × β) ε := fun s minIndent =>
  match p1 s minIndent with
  | .ok (pr1, out1, s1) =>
    match p2 s1 minIndent with
    | .ok (pr2, out2, s2) => .ok (pr1.or pr2, (out1, out2), s2)
    | .error (pr2, fail) => .error (pr1.or pr2, fail)
  | .error (progress, fail) => .error (progress, fail)

/-- The binary `one_of!` macro, `parser.rs` lines 1782-1793 (the state is
immutable, so the saved `original_state` is the argument state itself). -/
def oneOf (p1 p2 : Parser α ε) : Parser α ε := fun s minIndent =>
  match p1 s minIndent with
  | .ok r => .ok r
  | .error (.MadeProgress, fail) => .error (.MadeProgress, fail)
  | .error (.NoProgress, _) => p2 s minIndent

/-- The n-ary `one_of!` macro, `parser.rs` lines 1795-1800: right-nested
binary `one_of!` over a head alternative and a list of later ones. -/
def oneOfList (p : Parser α ε) : List (Parser α ε) → Parser α ε
  | [] => p
  | q :: qs => oneOf p (oneOfList q qs)

/-- `backtrackable`, `parser.rs` lines 2719-2730. -/
def backtrackable (p : Parser α ε) : Parser α ε := fun s minIndent =>
  match p s minIndent with
  | .ok (_, a, s1) => .ok (.NoProgress, a, s1)
  | .error (_, f) => .error (.NoProgress, f)

/-- The `loop` of `sep_by0`, `parser.rs` lines 1058-1087, entered after the
first element succeeded; fueled, `none` = fuel exhausted. -/
def sepBy0Loop (delimiter : Parser Unit ε) (p : Parser α ε)
    (minIndent startBytesLen : Nat) :
    Nat → List α → State → Option (ParseResult (List α) ε)
  | 0, _, _ => none
  | fuel + 1, buf, st =>
    match delimiter st minIndent with
    | .ok (_, _, nextState) =>
      match p nextState minIndent with
      | .ok (_, nextOutput, st') =>
        sepBy0Loop delimiter p minIndent startBytesLen fuel (buf ++ [nextOutput]) st'
      | .error (_, fail) =>
        some (.error (Progress.fromLengths startBytesLen nextState.bytes.length, fail))
    | .error (.MadeProgress, fail) => some (.error (.MadeProgress, fail))
    | .error (.NoProgress, _) => some (.ok (.NoProgress, buf, st))

/-- `sep_by0`, `parser.rs` lines 1034-1095. -/
def sepBy0 (delimiter : Parser Unit ε) (p : Parser α ε) (fuel : Nat) :
    State → Nat → Option (ParseResult (List α) ε) := fun s minIndent =>
  let startBytesLen := s.bytes.length
  match p s minIndent with
  | .ok (_, firstOutput, nextState) =>
    sepBy0Loop delimiter p minIndent startBytesLen fuel [firstOutput] nextState
  | .error (.MadeProgress, fail) => some (.error (.MadeProgress, fail))
  | .error (.NoProgress, _) => some (.ok (.NoProgress, [], s))

/-- The `loop` of `trailing_sep_by0`, `parser.rs` lines 1121-1149: identical
to `sepBy0Loop` except that a delimiter success followed by an element
failure is a success ending at the state after the delimiter. -/
def trailingSepBy0Loop (delimiter : Parser Unit ε) (p : Parser α ε)
    (minIndent startBytesLen : Nat) :
    Nat → List α → State → Option (ParseResult (List α) ε)
  | 0, _, _ => none
  | fuel + 1, buf, st =>
    match delimiter st minIndent with
    | .ok (_, _, nextState) =>
      match p nextState minIndent with
      | .ok (_, nextOutput, st') =>
        trailingSepBy0Loop delimiter p minIndent startBytesLen fuel (buf ++ [nextOutput]) st'
      | .error (_, _) =>
        some (.ok (Progress.fromLengths startBytesLen nextState.bytes.length, buf, nextState))
    | .error (.MadeProgress, fail) => some (.error (.MadeProgress, fail))
    | .error (.NoProgress, _) => some (.ok (.NoProgress, buf, st))

/-- `trailing_sep_by0`, `parser.rs` lines 1099-1157. -/
def trailingSepBy0 (delimiter : Parser Unit ε) (p : Parser α ε) (fuel : Nat) :
    State → Nat → Option (ParseResult (List α) ε) := fun s minIndent =>
  let startBytesLen := s.bytes.length
  match p s minIndent with
  | .ok (_, firstOutput, nextState) =>
    trailingSepBy0Loop delimiter p minIndent startBytesLen fuel [firstOutput] nextState
  | .error (.MadeProgress, fail) => some (.error (.MadeProgress, fail))
  | .error (.NoProgress, _) => some (.ok (.NoProgress, [], s))

/-- The `loop` of the `zero_or_more!` macro, `parser.rs` lines 2296-2318. -/
def zeroOrMoreLoop (p : Parser α ε) (minIndent startBytesLen : Nat) :
    Nat → List α → State → Option (ParseResult (List α) ε)
  | 0, _, _ => none
  | fuel + 1, buf, st =>
    match p st minIndent with
    | .ok (_, nextOutput, st') =>
      zeroOrMoreLoop p minIndent startBytesLen fuel (buf ++ [nextOutput]) st'
    | .error (.MadeProgress, fail) => some (.error (.MadeProgress, fail))
    | .error (.NoProgress, _) =>
      some (.ok (Progress.fromLengths startBytesLen st.bytes.length, buf, st))

/-- The `zero_or_more!` macro, `parser.rs` lines 2280-2336. -/
def zeroOrMore (p : Parser α ε) (fuel : Nat) :
    State → Nat → Option (ParseResult (List α) ε) := fun s minIndent =>
  let startBytesLen := s.bytes.length
  match p s minIndent with
  | .ok (_, firstOutput, nextState) =>
    zeroOrMoreLoop p minIndent startBytesLen fuel [firstOutput] nextState
  | .error (.MadeProgress, fail) => some (.error (.MadeProgress, fail))
  | .error (.NoProgress, _) => some (.ok (.NoProgress, [], s))

/-- The `loop` of the `one_or_more!` macro, `parser.rs` lines 2387-2401. -/
def oneOrMoreLoop (p : Parser α ε) (minIndent : Nat) :
    Nat → List α → State → Option (ParseResult (List α) ε)
  | 0, _, _ => none
  | fuel + 1, buf, st =>
    match p st minIndent with
    | .ok (_, nextOutput, st') =>
      oneOrMoreLoop p minIndent fuel (buf ++ [nextOutput]) st'
    | .error (.NoProgress, _) => some (.ok (.MadeProgress, buf, st))
    | .error (.MadeProgress, fail) => some (.error (.MadeProgress, fail))

/-- The `one_or_more!` macro, `parser.rs` lines 2375-2407. -/
def oneOrMore (p : Parser α ε) (toError : Nat → ε) (fuel : Nat) :
    State → Nat → Option (ParseResult (List α) ε) := fun s minIndent =>
  match p s minIndent with
  | .ok (_, firstOutput, nextState) =>
    oneOrMoreLoop p minIndent fuel [firstOutput] nextState
  | .error (progress, _) => some (.error (progress, toError s.pos))

/-- Progress honesty of a parser (spec section 4.1 / section 8): a
`MadeProgress` success strictly shrank the remaining input and a
`NoProgress` success left its length unchanged. -/
def Honest (p : Parser α ε) : Prop :=
  ∀ s minIndent pr v s', p s minIndent = .ok (pr, v, s') →
    (pr = .MadeProgress → s'.bytes.length < s.bytes.length) ∧
    (pr = .NoProgress → s'.bytes.length = s.bytes.length)

/-- A parser never moves the cursor backward: a success never grows the
remaining input. -/
def NonGrowing (p : Parser α ε) : Prop :=
  ∀ s minIndent pr v s', p s minIndent = .ok (pr, v, s') →
    s'.bytes.length ≤ s.bytes.length

/-- `sep_by0`'s loop with the partiality of the Rust `usize` subtraction in
its `Progress::from_lengths` call (`parser.rs` lines 1073-1076) made
explicit: the element-failure exit returns `none` when the subtraction
would underflow (besides `none` for fuel exhaustion). -/
def sepBy0LoopChecked (delimiter : Parser Unit ε) (p : Parser α ε)
    (minIndent startBytesLen : Nat) :
    Nat → List α → State → Option (ParseResult (List α) ε)
  | 0, _, _ => none
  | fuel + 1, buf, st =>
    match delimiter st minIndent with
    | .ok (_, _, nextState) =>
      match p nextState minIndent with
      | .ok (_, nextOutput, st') =>
        sepBy0LoopChecked delimiter p minIndent startBytesLen fuel (buf ++ [nextOutput]) st'
      | .error (_, fail) =>
        match Progress.fromLengthsChecked startBytesLen nextState.bytes.length with
        | some progress => some (.error (progress, fail))
        | none => none
    | .error (.MadeProgress, fail) => some (.error (.MadeProgress, fail))
    | .error (.NoProgress, _) => some (.ok (.NoProgress, buf, st))

/-- `sep_by0` over the checked loop. -/
def sepBy0Checked (delimiter : Parser Unit ε) (p : Parser α ε) (fuel : Nat) :
    State → Nat → Option (ParseResult (List α) ε) := fun s minIndent =>
  let startBytesLen := s.bytes.length
  match p s minIndent with
  | .ok (_, firstOutput, nextState) =>
    sepBy0LoopChecked delimiter p minIndent startBytesLen fuel [firstOutput] nextState
  | .error (.MadeProgress, fail) => some (.error (.MadeProgress, fail))
  | .error (.NoProgress, _) => some (.ok (.NoProgress, [], s))


lemma fromLengths_eq_made (before after : Nat) :
    Progress.fromLengths before after = .MadeProgress ↔ after < before := by
  simp only [Progress.fromLengths, Progress.fromConsumed, Progress.progressWhen]
  split
  · rename_i hc
    simp only [bne_iff_ne, ne_eq] at hc
    constructor
    · intro _; omega
    · intro _; rfl
  · rename_i hc
    simp only [bne_iff_ne, ne_eq, not_not] at hc
    constructor
    · intro h; exact absurd h (by simp)
    · intro h; omega

lemma byte_honest (b : UInt8) (toError : Nat → ε) : Honest (byte b toError) := by
  rintro ⟨bs, off, col⟩ minIndent pr v s' h
  cases bs with
  | nil => simp [byte] at h
  | cons x xs =>
    simp only [byte, List.head?] at h
    split at h
    · simp only [Except.ok.injEq, Prod.mk.injEq] at h
      obtain ⟨hpr, _, hs'⟩ := h
      subst hpr
      subst hs'
      refine ⟨fun _ => ?_, fun hc => by cases hc⟩
      simp [State.advance]
    · simp at h

lemma honest_nonGrowing (p : Parser α ε) (hp : Honest p) : NonGrowing p := by
  intro s minIndent pr v s' h
  obtain ⟨h1, h2⟩ := hp s minIndent pr v s' h
  cases pr with
  | MadeProgress => exact le_of_lt (h1 rfl)
  | NoProgress => exact le_of_eq (h2 rfl)

lemma sepBy0Loop_ok_noProgress (delimiter : Parser Unit ε) (p : Parser α ε)
    (minIndent startBytesLen : Nat) :
    ∀ fuel buf st pr v s',
      sepBy0Loop delimiter p minIndent startBytesLen fuel buf st = some (.ok (pr, v, s')) →
      pr = .NoProgress := by
  intro fuel
  induction fuel with
  | zero => intro buf st pr v s' h; simp [sepBy0Loop] at h
  | succ n ih =>
    intro buf st pr v s' h
    rw [sepBy0Loop] at h
    split at h
    · split at h
      · exact ih _ _ _ _ _ h
      · simp at h
    · simp at h
    · simp only [Option.some.injEq, Except.ok.injEq, Prod.mk.injEq] at h
      exact h.1.symm

lemma trailingSepBy0Loop_made (delimiter : Parser Unit ε) (p : Parser α ε)
    (minIndent startBytesLen : Nat) :
    ∀ fuel buf st v s',
      trailingSepBy0Loop delimiter p minIndent startBytesLen fuel buf st
        = some (.ok (.MadeProgress, v, s')) →
      s'.bytes.length < startBytesLen := by
  intro fuel
  induction fuel with
  | zero => intro buf st v s' h; simp [trailingSepBy0Loop] at h
  | succ n ih =>
    intro buf st v s' h
    rw [trailingSepBy0Loop] at h
    split at h
    · split at h
      · exact ih _ _ _ _ h
      · simp only [Option.some.injEq, Except.ok.injEq, Prod.mk.injEq] at h
        obtain ⟨hp, _, hs⟩ := h
        subst hs
        exact (fromLengths_eq_made _ _).mp hp
    · simp at h
    · simp at h

/-- Claim C1, amended.  The claimed progress-honesty law fails for the
separated-list combinators (see `sep_by0_progress_cex`): both can succeed
reporting `NoProgress` after consuming elements, because the
delimiter-`NoProgress` exit reports `NoProgress` unconditionally, and
`sep_by0`'s success exits in fact always report `NoProgress`.  What holds
is the `MadeProgress` direction: every `sep_by0` success reports
`NoProgress`, and every `trailing_sep_by0` success that reports
`MadeProgress` returns a state with strictly fewer remaining bytes than
the input state. -/
theorem sep_by0_progress_amended (delimiter : Parser Unit ε) (p : Parser α ε)
    (fuel : Nat) (s : State) (minIndent : Nat) :
    (∀ pr v s', sepBy0 delimiter p fuel s minIndent = some (.ok (pr, v, s')) →
        pr = .NoProgress) ∧
    (∀ v s', trailingSepBy0 delimiter p fuel s minIndent = some (.ok (.MadeProgress, v, s')) →
        s'.bytes.length < s.bytes.length) := by
  constructor
  · intro pr v s' h
    rw [sepBy0] at h
    split at h
    · exact sepBy0Loop_ok_noProgress _ _ _ _ _ _ _ _ _ _ h
    · simp at h
    · simp only [Option.some.injEq, Except.ok.injEq, Prod.mk.injEq] at h
      exact h.1.symm
  · intro v s' h
    rw [trailingSepBy0] at h
    split at h
    · exact trailingSepBy0Loop_made _ _ _ _ _ _ _ _ _ h
    · simp at h
    · simp at h

theorem sep_by0_progress_amended_witness :
    (⟨[], 2, 2⟩ : State).bytes.length < (⟨[97, 44], 0, 0⟩ : State).bytes.length :=
  (sep_by0_progress_amended (byte 44 (fun p => p)) (byte 97 (fun p => p)) 1
      ⟨[97, 44], 0, 0⟩ 0).2 [()] ⟨[], 2, 2⟩ (by rfl)

theorem sep_by0_progress_cex :
    Honest (byte 44 (fun p => p) : Parser Unit Nat) ∧
    Honest (byte 97 (fun p => p) : Parser Unit Nat) ∧
    sepBy0 (byte 44 (fun p => p)) (byte 97 (fun p => p)) 1 ⟨[97], 0, 0⟩ 0
      = some (.ok (.NoProgress, [()], ⟨[], 1, 1⟩)) ∧
    (⟨[], 1, 1⟩ : State).bytes.length ≠ (⟨[97], 0, 0⟩ : State).bytes.length :=
  ⟨byte_honest _ _, byte_honest _ _, by rfl, by decide⟩

/-- Claim C2.  The n-ary `one_of!` tries alternatives in source order, each
from the same pre-attempt state: a success is returned immediately and
later alternatives are never run (the equations hold for every choice of
later alternatives); a `MadeProgress` failure is returned immediately
likewise; a `NoProgress` failure of the head hands the same state to the
remaining alternatives; and when every alternative fails with
`NoProgress` the last alternative's failure is returned. -/
theorem one_of_semantics (p : Parser α ε) (qs : List (Parser α ε)) (s : State) (m : Nat) :
    (∀ r, p s m = .ok r → oneOfList p qs s m = .ok r) ∧
    (∀ f, p s m = .error (.MadeProgress, f) → oneOfList p qs s m = .error (.MadeProgress, f)) ∧
    (∀ f q qs', qs = q :: qs' → p s m = .error (.NoProgress, f) →
        oneOfList p qs s m = oneOfList q qs' s m) ∧
    ((∀ q, q ∈ p :: qs → ∃ f, q s m = .error (.NoProgress, f)) →
        oneOfList p qs s m = (qs.getLastD p) s m) := by
  refine ⟨?_, ?_, ?_, ?_⟩
  · intro r h
    cases qs with
    | nil => simpa [oneOfList] using h
    | cons q qs' => simp [oneOfList, oneOf, h]
  · intro f h
    cases qs with
    | nil => simpa [oneOfList] using h
    | cons q qs' => simp [oneOfList, oneOf, h]
  · intro f q qs' hqs h
    subst hqs
    simp [oneOfList, oneOf, h]
  · induction qs generalizing p with
    | nil => intro _; simp [oneOfList]
    | cons q qs' ih =>
      intro hall
      obtain ⟨f, hf⟩ := hall p (by simp)
      have h1 : oneOfList p (q :: qs') s m = oneOfList q qs' s m := by
        simp [oneOfList, oneOf, hf]
      rw [h1, ih q (fun r hr => hall r (List.mem_cons_of_mem p hr)), List.getLastD_cons]

theorem one_of_semantics_witness :
    oneOfList (byte 120 (fun p => p)) [byte 121 (fun p => p), byte 122 (fun p => p)]
        ⟨[97], 0, 0⟩ 0
      = (byte 122 (fun p => p) : Parser Unit Nat) ⟨[97], 0, 0⟩ 0 :=
  (one_of_semantics _ _ _ _).2.2.2 (by
    intro q hq
    rcases List.mem_cons.mp hq with rfl | hq
    · exact ⟨0, rfl⟩
    rcases List.mem_cons.mp hq with rfl | hq
    · exact ⟨0, rfl⟩
    rcases List.mem_cons.mp hq with rfl | hq
    · exact ⟨0, rfl⟩
    · cases hq)

/-- Claim C3.  `and!(A, B)`: A's failure is propagated verbatim (same
progress, same error); when A succeeds and B fails the result is B's
error with progress `A.progress OR B.progress`; when both succeed the
result is the pair of outputs, B's state, and progress
`A.progress OR B.progress`; and `Progress::or` is `MadeProgress` exactly
when either operand is. -/
theorem and_semantics (p1 : Parser α ε) (p2 : Parser β ε) (s : State) (m : Nat) :
    (∀ pr f, p1 s m = .error (pr, f) → andP p1 p2 s m = .error (pr, f)) ∧
    (∀ pr1 o1 s1 pr2 f, p1 s m = .ok (pr1, o1, s1) → p2 s1 m = .error (pr2, f) →
        andP p1 p2 s m = .error (pr1.or pr2, f)) ∧
    (∀ pr1 o1 s1 pr2 o2 s2, p1 s m = .ok (pr1, o1, s1) → p2 s1 m = .ok (pr2, o2, s2) →
        andP p1 p2 s m = .ok (pr1.or pr2, (o1, o2), s2)) ∧
    (∀ a b : Progress, a.or b = .MadeProgress ↔ (a = .MadeProgress ∨ b = .MadeProgress)) := by
  refine ⟨?_, ?_, ?_, ?_⟩
  · intro pr f h; simp [andP, h]
  · intro pr1 o1 s1 pr2 f h1 h2; simp [andP, h1, h2]
  · intro pr1 o1 s1 pr2 o2 s2 h1 h2; simp [andP, h1, h2]
  · intro a b; cases a <;> cases b <;> simp [Progress.or]

theorem and_semantics_witness :
    andP (byte 104 (fun p => p)) (byte 105 (fun p => p)) ⟨[104, 105], 0, 0⟩ 0
      = .ok ((Progress.MadeProgress).or .MadeProgress, ((), ()), ⟨[], 2, 2⟩) :=
  (and_semantics _ _ _ _).2.2.1 .MadeProgress () ⟨[105], 1, 1⟩ .MadeProgress () ⟨[], 2, 2⟩
    rfl rfl

/-- Claim C4, amended.  `backtrackable(P)` reports `NoProgress` on both
outcomes: on P's success it forwards P's output and resulting state with
`NoProgress`, and on P's failure it returns a `NoProgress` failure that
carries P's own error unchanged — the error is preserved, not discarded
in favor of an empty failure (see `backtrackable_discard_cex`). -/
theorem backtrackable_semantics (p : Parser α ε) (s : State) (m : Nat) :
    (∀ pr a s', p s m = .ok (pr, a, s') → backtrackable p s m = .ok (.NoProgress, a, s')) ∧
    (∀ pr f, p s m = .error (pr, f) → backtrackable p s m = .error (.NoProgress, f)) := by
  constructor
  · intro pr a s' h; simp [backtrackable, h]
  · intro pr f h; simp [backtrackable, h]

theorem backtrackable_semantics_witness :
    backtrackable (word [104, 105] (fun p => p)) ⟨[104, 105], 0, 0⟩ 0
      = .ok (.NoProgress, (), ⟨[], 2, 2⟩) :=
  (backtrackable_semantics _ _ _).1 .MadeProgress () ⟨[], 2, 2⟩ rfl

theorem backtrackable_discard_cex :
    backtrackable (word [98, 121, 101] (fun _ => (1 : Nat))) ⟨[104, 105], 0, 0⟩ 0
      = .error (.NoProgress, 1) ∧
    backtrackable (word [98, 121, 101] (fun _ => (2 : Nat))) ⟨[104, 105], 0, 0⟩ 0
      = .error (.NoProgress, 2) ∧
    backtrackable (word [98, 121, 101] (fun _ => (1 : Nat))) ⟨[104, 105], 0, 0⟩ 0
      ≠ backtrackable (word [98, 121, 101] (fun _ => (2 : Nat))) ⟨[104, 105], 0, 0⟩ 0 :=
  ⟨rfl, rfl, by decide⟩

/-- Counterexample to claim C5 as stated: `word("when", E)` on `"whence"`
does not fail — it succeeds with `MadeProgress` consuming 4 bytes,
because `word` never inspects the byte after its literal. -/
theorem word_boundary_cex :
    word [119, 104, 101, 110] (fun q => q) ⟨[119, 104, 101, 110, 99, 101], 0, 0⟩ 0
      = .ok (.MadeProgress, (), ⟨[99, 101], 4, 4⟩) ∧
    ¬ (word [119, 104, 101, 110] (fun q => q) ⟨[119, 104, 101, 110, 99, 101], 0, 0⟩ 0
      = .error (.NoProgress, 0)) :=
  ⟨rfl, by decide⟩

/-- Claim C5, amended.  It is `keyword`, not `word`, that requires the
literal to be followed by a space, `#`, newline, carriage return, or end
of input: `keyword("when", E)` on `"whence"` fails with `NoProgress`,
on `"when "` succeeds consuming exactly 4 bytes, and on `"when"` at
end of input succeeds; `word("when", E)` on `"whence"` succeeds
consuming 4 bytes. -/
theorem word_vs_keyword_boundary :
    keyword [119, 104, 101, 110] (fun q => q) ⟨[119, 104, 101, 110, 99, 101], 0, 0⟩ 0
      = .error (.NoProgress, 0) ∧
    keyword [119, 104, 101, 110] (fun q => q) ⟨[119, 104, 101, 110, 32], 0, 0⟩ 0
      = .ok (.MadeProgress, (), ⟨[32], 4, 4⟩) ∧
    keyword [119, 104, 101, 110] (fun q => q) ⟨[119, 104, 101, 110], 0, 0⟩ 0
      = .ok (.MadeProgress, (), ⟨[], 4, 4⟩) ∧
    word [119, 104, 101, 110] (fun q => q) ⟨[119, 104, 101, 110, 99, 101], 0, 0⟩ 0
      = .ok (.MadeProgress, (), ⟨[99, 101], 4, 4⟩) :=
  ⟨rfl, rfl, rfl, rfl⟩

/-- Counterexample to claim C6 as stated: when the very first attempt fails
with `MadeProgress` (here `and!(byte a, byte b)` on input `"ac"`, whose
own error is 20), `one_or_more!` does not propagate the inner parser's
error — it fails with `MadeProgress` and the caller-supplied mapping's
error (99), while `zero_or_more!` on the same input does propagate the
inner error 20. -/
theorem one_or_more_error_cex :
    oneOrMore (andP (byte 97 (fun _ => (10 : Nat))) (byte 98 (fun _ => (20 : Nat))))
        (fun _ => (99 : Nat)) 1 ⟨[97, 99], 0, 0⟩ 0
      = some (.error (.MadeProgress, 99)) ∧
    oneOrMore (andP (byte 97 (fun _ => (10 : Nat))) (byte 98 (fun _ => (20 : Nat))))
        (fun _ => (99 : Nat)) 1 ⟨[97, 99], 0, 0⟩ 0
      ≠ some (.error (.MadeProgress, 20)) ∧
    andP (byte 97 (fun _ => (10 : Nat))) (byte 98 (fun _ => (20 : Nat))) ⟨[97, 99], 0, 0⟩ 0
      = .error (.MadeProgress, 20) ∧
    zeroOrMore (andP (byte 97 (fun _ => (10 : Nat))) (byte 98 (fun _ => (20 : Nat))))
        1 ⟨[97, 99], 0, 0⟩ 0
      = some (.error (.MadeProgress, 20)) :=
  ⟨rfl, by decide, rfl, rfl⟩

/-- Claim C6, amended.  Whenever the very first attempt of `one_or_more!`
fails, the combinator fails with the attempt's progress and the error
produced by the caller-supplied position-to-error mapping at the
pre-attempt position — for a `MadeProgress` first failure as well, not
just a `NoProgress` one; `zero_or_more!`, by contrast, propagates the
inner parser's own error verbatim on a `MadeProgress` failure. -/
theorem one_or_more_first_failure (p : Parser α ε) (toError : Nat → ε) (fuel : Nat)
    (s : State) (m : Nat) :
    (∀ pr f, p s m = .error (pr, f) →
        oneOrMore p toError fuel s m = some (.error (pr, toError s.pos))) ∧
    (∀ f, p s m = .error (.MadeProgress, f) →
        zeroOrMore p fuel s m = some (.error (.MadeProgress, f))) := by
  constructor
  · intro pr f h; simp [oneOrMore, h]
  · intro f h; simp [zeroOrMore, h]

theorem one_or_more_first_failure_witness :
    oneOrMore (byte 97 (fun q => q)) (fun q => q + 50) 1 ⟨[98], 0, 0⟩ 0
      = some (.error (.NoProgress, 50)) :=
  (one_or_more_first_failure _ _ _ _ _).1 .NoProgress 0 rfl

/-- Claim C7.  `byte_indent(b, to_error)` under threshold `min_indent`:
when `min_indent` exceeds the state's column it fails with `NoProgress`
and the error at the current position, without inspecting the input
bytes (the outcome is the same for every byte buffer); when
`min_indent ≤ column` it succeeds with `MadeProgress` consuming exactly
one byte if the next byte equals `b`, and otherwise fails with
`NoProgress`. -/
theorem byte_indent_semantics (b : UInt8) (toError : Nat → ε) (s : State) (m : Nat) :
    (s.column < m → byteIndent b toError s m = .error (.NoProgress, toError s.pos)) ∧
    (s.column < m → ∀ bs, byteIndent b toError ⟨bs, s.offset, s.column⟩ m
        = .error (.NoProgress, toError s.pos)) ∧
    (m ≤ s.column → s.bytes.head? = some b →
        byteIndent b toError s m = .ok (.MadeProgress, (), s.advance 1)) ∧
    (m ≤ s.column → s.bytes.head? ≠ some b →
        byteIndent b toError s m = .error (.NoProgress, toError s.pos)) := by
  refine ⟨?_, ?_, ?_, ?_⟩
  · intro h; simp [byteIndent, h]
  · intro h bs; simp [byteIndent, State.pos, h]
  · intro h1 h2
    simp [byteIndent, Nat.not_lt.mpr h1, h2]
  · intro h1 h2
    rcases hb : s.bytes.head? with _ | x
    · simp [byteIndent, Nat.not_lt.mpr h1, hb]
    · have hxb : (x == b) = false := by
        rw [hb] at h2
        simp only [ne_eq, Option.some.injEq] at h2
        exact beq_eq_false_iff_ne.mpr h2
      simp [byteIndent, Nat.not_lt.mpr h1, hb, hxb]

theorem byte_indent_semantics_witness :
    byteIndent 104 (fun q => q) ⟨[104], 7, 2⟩ 5 = .error (.NoProgress, 7) ∧
    byteIndent 104 (fun q => q) ⟨[104], 7, 5⟩ 5 = .ok (.MadeProgress, (), ⟨[], 8, 6⟩) :=
  ⟨(byte_indent_semantics _ _ _ _).1 (by decide),
   (byte_indent_semantics _ _ _ _).2.2.1 (by decide) rfl⟩

/-- Claim C8.  In `trailing_sep_by0`, after at least one element (i.e.
inside the loop), a delimiter success followed by an element failure is
a success: the elements collected so far are returned with the state
positioned after the delimiter, the trailing delimiter consumed; in
particular on input `"e1,e2,"` the combinator returns both elements
and consumes the trailing delimiter. -/
theorem trailing_sep_by0_trailing (delimiter : Parser Unit ε) (p : Parser α ε)
    (minIndent startBytesLen fuel : Nat) (buf : List α) (st : State) :
    (∀ dp sd ep f, delimiter st minIndent = .ok (dp, (), sd) →
        p sd minIndent = .error (ep, f) →
        trailingSepBy0Loop delimiter p minIndent startBytesLen (fuel + 1) buf st
          = some (.ok (Progress.fromLengths startBytesLen sd.bytes.length, buf, sd))) ∧
    trailingSepBy0 (byte 44 (fun q => q))
        (andP (byte 101 (fun q => q)) (oneOf (byte 49 (fun q => q)) (byte 50 (fun q => q))))
        3 ⟨[101, 49, 44, 101, 50, 44], 0, 0⟩ 0
      = some (.ok (.MadeProgress, [((), ()), ((), ())], ⟨[], 6, 6⟩)) := by
  constructor
  · intro dp sd ep f h1 h2
    rw [trailingSepBy0Loop]
    simp [h1, h2]
  · rfl

theorem trailing_sep_by0_trailing_witness :
    trailingSepBy0Loop (byte 44 (fun q => q)) (byte 97 (fun q => q)) 0 2 1 [()] ⟨[44], 1, 1⟩
      = some (.ok (Progress.fromLengths 2 (⟨[], 2, 2⟩ : State).bytes.length, [()],
          ⟨[], 2, 2⟩)) :=
  (trailing_sep_by0_trailing _ _ 0 2 0 [()] ⟨[44], 1, 1⟩).1 .MadeProgress ⟨[], 2, 2⟩
    .NoProgress 2 rfl rfl

/-- Claim C9.  `keyword(k, to_error)` succeeds with `MadeProgress`
consuming exactly `k.length` bytes exactly when the input starts with
`k` and the byte after it is a space, `#`, `\n`, `\r`, or absent; in
every other case (including a tab or an identifier byte after `k`) it
fails with `NoProgress` and the error built at the pre-attempt
position. -/
theorem keyword_semantics (k : List UInt8) (ifError : Nat → ε) (s : State) (m : Nat) :
    (listStartsWith s.bytes k = true →
      (s.bytes[k.length]? = none →
        keyword k ifError s m = .ok (.MadeProgress, (), s.advance k.length)) ∧
      (∀ c, s.bytes[k.length]? = some c →
        ((c == 32 || c == 35 || c == 10 || c == 13) = true →
          keyword k ifError s m = .ok (.MadeProgress, (), s.advance k.length)) ∧
        ((c == 32 || c == 35 || c == 10 || c == 13) = false →
          keyword k ifError s m = .error (.NoProgress, ifError s.pos)))) ∧
    (listStartsWith s.bytes k = false →
      keyword k ifError s m = .error (.NoProgress, ifError s.pos)) ∧
    ((s.advance k.length).bytes.length = s.bytes.length - k.length) := by
  refine ⟨?_, ?_, ?_⟩
  · intro hsw
    constructor
    · intro hn; simp [keyword, hsw, hn]
    · intro c hc
      constructor
      · intro hbo; simp [keyword, hsw, hc, hbo]
      · intro hbo; simp [keyword, hsw, hc, hbo]
  · intro hsw; simp [keyword, hsw]
  · simp [State.advance]

theorem keyword_semantics_witness :
    keyword [119, 104, 101, 110] (fun q => q) ⟨[119, 104, 101, 110, 9], 0, 0⟩ 0
      = .error (.NoProgress, 0) ∧
    keyword [119, 104, 101, 110] (fun q => q) ⟨[119, 104, 101, 110, 32, 120], 0, 0⟩ 0
      = .ok (.MadeProgress, (),
          State.advance ⟨[119, 104, 101, 110, 32, 120], 0, 0⟩ 4) :=
  ⟨(((keyword_semantics [119, 104, 101, 110] (fun q => q)
        ⟨[119, 104, 101, 110, 9], 0, 0⟩ 0).1 rfl).2 9 rfl).2 rfl,
   (((keyword_semantics [119, 104, 101, 110] (fun q => q)
        ⟨[119, 104, 101, 110, 32, 120], 0, 0⟩ 0).1 rfl).2 32 rfl).1 rfl⟩

lemma sepBy0LoopChecked_eq (delimiter : Parser Unit ε) (p : Parser α ε)
    (minIndent startBytesLen : Nat) (hd : NonGrowing delimiter) (hp : NonGrowing p) :
    ∀ fuel buf st, st.bytes.length ≤ startBytesLen →
      sepBy0LoopChecked delimiter p minIndent startBytesLen fuel buf st
        = sepBy0Loop delimiter p minIndent startBytesLen fuel buf st := by
  intro fuel
  induction fuel with
  | zero => intro buf st _; rfl
  | succ n ih =>
    intro buf st hst
    rw [sepBy0LoopChecked, sepBy0Loop]
    cases hdel : delimiter st minIndent with
    | ok r =>
      obtain ⟨dp, u, nextState⟩ := r
      have hnd : nextState.bytes.length ≤ st.bytes.length := hd _ _ _ _ _ hdel
      simp only [hdel]
      cases hel : p nextState minIndent with
      | ok r2 =>
        obtain ⟨ep, v2, st2⟩ := r2
        have hn2 : st2.bytes.length ≤ nextState.bytes.length := hp _ _ _ _ _ hel
        simp only [hel]
        exact ih _ _ (le_trans hn2 (le_trans hnd hst))
      | error e =>
        obtain ⟨ep, f⟩ := e
        have hle : nextState.bytes.length ≤ startBytesLen := le_trans hnd hst
        simp [Progress.fromLengthsChecked, hle]
    | error e =>
      obtain ⟨dp, f⟩ := e
      cases dp <;> rfl

/-- Claim C10.  `Progress::from_lengths(before, after)` is well-defined
under the precondition `after ≤ before`: the checked model of the
partial `usize` subtraction agrees with the total embedding there, and
the result is `MadeProgress` iff `before > after`.  At `sep_by0`'s call
site the precondition always holds when the delimiter and element
parsers never move the cursor backward: the checked combinator (which
would report the underflow) coincides with the unchecked one on every
input. -/
theorem from_lengths_safety :
    (∀ before after : Nat, after ≤ before →
        Progress.fromLengthsChecked before after = some (Progress.fromLengths before after) ∧
        (Progress.fromLengths before after = .MadeProgress ↔ after < before)) ∧
    (∀ (delimiter : Parser Unit ε) (p : Parser α ε),
        NonGrowing delimiter → NonGrowing p →
        ∀ fuel s minIndent, sepBy0Checked delimiter p fuel s minIndent
          = sepBy0 delimiter p fuel s minIndent) := by
  constructor
  · intro before after h
    exact ⟨by simp [Progress.fromLengthsChecked, h], fromLengths_eq_made before after⟩
  · intro delimiter p hd hp fuel s minIndent
    rw [sepBy0Checked, sepBy0]
    cases hel : p s minIndent with
    | ok r =>
      obtain ⟨ep, v, s1⟩ := r
      simp only [hel]
      exact sepBy0LoopChecked_eq _ _ _ _ hd hp fuel _ _ (hp _ _ _ _ _ hel)
    | error e =>
      obtain ⟨ep, f⟩ := e
      cases ep <;> rfl

theorem from_lengths_safety_witness :
    (Progress.fromLengthsChecked 5 3 = some (Progress.fromLengths 5 3) ∧
      (Progress.fromLengths 5 3 = .MadeProgress ↔ 3 < 5)) ∧
    sepBy0Checked (byte 44 (fun q => q)) (byte 97 (fun q => q)) 1 ⟨[97], 0, 0⟩ 0
      = sepBy0 (byte 44 (fun q => q)) (byte 97 (fun q => q)) 1 ⟨[97], 0, 0⟩ 0 :=
  ⟨(from_lengths_safety (α := Unit) (ε := Nat)).1 5 3 (by decide),
   (from_lengths_safety (α := Unit) (ε := Nat)).2 _ _
     (honest_nonGrowing _ (byte_honest _ _)) (honest_nonGrowing _ (byte_honest _ _))
     1 ⟨[97], 0, 0⟩ 0⟩

end Roc
